import Mathlib

/-!
Verification of the git-fat core (source: src/src/git_utils.py, class GitFat).

Modelling conventions:
- A Python 3 `str` is a sequence of Unicode code points; we model it as `List Char`.
- A byte sequence (file contents on disk) is modelled as `List Nat` (each < 256).
- The object store directory `<git-dir>/fat/objects/` is an association list
  from blob name (digest string) to blob contents (bytes).
- Python exceptions are modelled with `Except PyErr`; a function that can raise
  returns `Except`.
- SHA-1 itself is kept abstract: the `GitFat` state carries `sha1hex`, the map
  from a byte sequence to its 40-character hex digest, mirroring
  `hashlib.new("sha1")`/`hexdigest()`.  No claim depends on SHA-1 internals.
- `GIT_FAT_VERSION` is the boolean field `version1` (true iff the environment
  variable equals "1").
- Logging calls (`logger.debug`, `logging.debug`, ...) are modelled as no-ops:
  the specification declares logging an out-of-scope adapter, and the `logger`
  name used by git_utils.py is supplied by code outside src/.
- Modelled from the spec: the helpers `readblocks`, `cat`, `cat_iter` and
  `itertools.chain` used by git_utils.py are absent from src/.  Following the
  spec (section 4.3), `readblocks` yields the stream as successive blocks (we
  model an input stream directly as its list of blocks, or for smudge as the
  full character sequence), `cat` copies a file to the output stream decoding
  its bytes as text, and `cat_iter`/`chain` concatenate the head bytes with the
  rest of the stream.
- Text streams: Python reads/writes `str` on stdin/stdout and on files opened
  in text mode, converting to bytes with UTF-8 (the code itself re-encodes
  blocks with `block.encode("utf-8")` before hashing).  `utf8`/`utf8Decode`
  below model that conversion at the ASCII-transparent level.
-/

/-- Whitespace characters used by Python `str.split()` with no separator
(ASCII range; exotic Unicode whitespace is not modelled). -/
def pyIsSpace (c : Char) : Bool :=
  c = ' ' || c = '\t' || c = '\n' || c = '\r' || c = '\x0b' || c = '\x0c'

/-- Worker for `pySplit`: `acc` holds the current token, reversed. -/
def splitAux : List Char → List Char → List (List Char)
  | [], acc => if acc.isEmpty then [] else [acc.reverse]
  | c :: cs, acc =>
    if pyIsSpace c then
      if acc.isEmpty then splitAux cs [] else acc.reverse :: splitAux cs []
    else splitAux cs (c :: acc)

/-- Python `str.split()` with no argument: split on runs of whitespace,
discarding empty tokens. -/
def pySplit (s : List Char) : List (List Char) := splitAux s []

/-- Numeric value of a decimal digit character. -/
def dval (c : Char) : Nat := c.toNat - 48

/-- Digits (with Python 3 single-underscore separators) after the first digit,
as consumed by `int()`. -/
def pyDigitsRest : List Char → Nat → Option Nat
  | [], acc => some acc
  | c :: cs, acc =>
    if c.isDigit then pyDigitsRest cs (10 * acc + dval c)
    else if c = '_' then
      match cs with
      | [] => none
      | c2 :: cs2 => if c2.isDigit then pyDigitsRest cs2 (10 * acc + dval c2) else none
    else none

/-- Unsigned decimal numeral as accepted by Python `int()` (base 10). -/
def pyParseNat : List Char → Option Nat
  | [] => none
  | c :: cs => if c.isDigit then pyDigitsRest cs (dval c) else none

/-- Python `int(token)` for a whitespace-free token: optional sign followed by
a decimal numeral; `none` models the `ValueError` raise. -/
def pyInt (s : List Char) : Option Int :=
  match s with
  | [] => none
  | c :: rest =>
    if c = '+' then (pyParseNat rest).map (fun n => (n : Int))
    else if c = '-' then (pyParseNat rest).map (fun n => -(n : Int))
    else (pyParseNat s).map (fun n => (n : Int))

/-- Decimal digits of a natural number, most significant first
(recursion on the value; used for reasoning). -/
def natDigitsWF (n : Nat) : List Char :=
  if h : n < 10 then [Char.ofNat (48 + n)]
  else natDigitsWF (n / 10) ++ [Char.ofNat (48 + n % 10)]
termination_by n
decreasing_by exact Nat.div_lt_self (by omega) (by omega)

/-- Fuel-driven version of `natDigitsWF` that the kernel can evaluate. -/
def natDigitsAux : Nat → Nat → List Char → List Char
  | 0, _, acc => acc
  | fuel + 1, n, acc =>
    let acc2 := Char.ofNat (48 + n % 10) :: acc
    if n < 10 then acc2 else natDigitsAux fuel (n / 10) acc2

/-- Decimal representation of a natural number (Python `"%d" % n` for n ≥ 0). -/
def natDigits (n : Nat) : List Char := natDigitsAux (n + 1) n []

/-- Decimal representation of a Python integer (`"%d" % n`). -/
def intDigits (n : Int) : List Char :=
  if n < 0 then '-' :: natDigits n.natAbs else natDigits n.toNat

/-- Right-justification in a field of `w` characters, as in `"%20d"`:
pad with spaces on the left, never truncate. -/
def pad (w : Nat) (s : List Char) : List Char :=
  List.replicate (w - s.length) ' ' ++ s

/-- UTF-8 encoding of one code point. -/
def utf8Char (c : Char) : List Nat :=
  let n := c.toNat
  if n < 0x80 then [n]
  else if n < 0x800 then [0xC0 + n / 0x40, 0x80 + n % 0x40]
  else if n < 0x10000 then
    [0xE0 + n / 0x1000, 0x80 + n / 0x40 % 0x40, 0x80 + n % 0x40]
  else
    [0xF0 + n / 0x40000, 0x80 + n / 0x1000 % 0x40, 0x80 + n / 0x40 % 0x40,
      0x80 + n % 0x40]

/-- UTF-8 encoding of a string (Python `s.encode("utf-8")`, and the bytes a
text-mode write of `s` puts on disk). -/
def utf8 (s : List Char) : List Nat := s.flatMap utf8Char

/-- Continuation byte test for `utf8Decode`. -/
def contByte (b : Nat) : Bool := 0x80 ≤ b && b < 0xC0

/-- Strict UTF-8 decoding of a byte sequence (Python text-mode read);
`none` models `UnicodeDecodeError`. -/
def utf8Decode : List Nat → Option (List Char)
  | [] => some []
  | b :: bs =>
    if b < 0x80 then (utf8Decode bs).map (fun s => Char.ofNat b :: s)
    else if 0xC2 ≤ b && b < 0xE0 then
      match bs with
      | b2 :: bs2 =>
        if contByte b2 then
          (utf8Decode bs2).map (fun s => Char.ofNat ((b - 0xC0) * 0x40 + (b2 - 0x80)) :: s)
        else none
      | [] => none
    else if 0xE0 ≤ b && b < 0xF0 then
      match bs with
      | b2 :: b3 :: bs3 =>
        if contByte b2 && contByte b3 then
          let v := (b - 0xE0) * 0x1000 + (b2 - 0x80) * 0x40 + (b3 - 0x80)
          if 0x800 ≤ v && !(0xD800 ≤ v && v < 0xE000) then
            (utf8Decode bs3).map (fun s => Char.ofNat v :: s)
          else none
        else none
      | _ => none
    else if 0xF0 ≤ b && b < 0xF5 then
      match bs with
      | b2 :: b3 :: b4 :: bs4 =>
        if contByte b2 && contByte b3 && contByte b4 then
          let v := (b - 0xF0) * 0x40000 + (b2 - 0x80) * 0x1000 +
            (b3 - 0x80) * 0x40 + (b4 - 0x80)
          if 0x10000 ≤ v && v < 0x110000 then
            (utf8Decode bs4).map (fun s => Char.ofNat v :: s)
          else none
        else none
      | _ => none
    else none

/-- Python-level exceptions raised by the modelled code paths. -/
inductive PyErr where
  /-- `GitFat.DecodeError` (a `RuntimeError`) raised by `decode` on a
  non-matching prefix with `noraise=False`. -/
  | decodeError
  /-- `IndexError` from `parts[0]` when `split()` returned no tokens. -/
  | indexError
  /-- `ValueError` from `int(parts[1])` on a non-numeral token. -/
  | valueError
  /-- `TypeError` from `"%20d" % None` (and other misuse of `None`). -/
  | typeError
  /-- `UnicodeDecodeError` from text-mode reads of non-UTF-8 bytes. -/
  | unicodeError
deriving DecidableEq, Repr

deriving instance DecidableEq for Except

/-- The per-invocation state of class `GitFat` that the core algorithms
consult: the encoding version switch and the hash function. -/
structure GitFat where
  /-- true iff the environment variable GIT_FAT_VERSION equals "1". -/
  version1 : Bool
  /-- `hashlib.sha1(bytes).hexdigest()`, kept abstract. -/
  sha1hex : List Nat → List Char

/-- The literal placeholder prefix `#$# git-fat ` (with trailing space). -/
def cookie : List Char := "#$# git-fat ".data

/-- `encode_v1`: legacy representation, `"#$# git-fat %s\n" % digest`
(the byte count is ignored). -/
def encode_v1 (digest : List Char) : List Char :=
  cookie ++ digest ++ ['\n']

/-- `encode_v2`: current representation, `"#$# git-fat %s %20d\n"`. -/
def encode_v2 (digest : List Char) (n : Int) : List Char :=
  cookie ++ digest ++ [' '] ++ pad 20 (intDigits n) ++ ['\n']

/-- `GitFat.encode` applied to an actual integer byte count: dispatch on
GIT_FAT_VERSION. -/
def encodeCore (g : GitFat) (digest : List Char) (n : Int) : List Char :=
  if g.version1 then encode_v1 digest else encode_v2 digest n

/-- `GitFat.encode` as called with a possibly-`None` byte count (the smudge
path): `encode_v2` applied to `None` raises `TypeError` from `"%20d" % None`;
`encode_v1` never touches the count. -/
def encode (g : GitFat) (digest : List Char) (n : Option Int) :
    Except PyErr (List Char) :=
  if g.version1 then .ok (encode_v1 digest)
  else
    match n with
    | some m => .ok (encode_v2 digest m)
    | none => .error .typeError

/-- `GitFat.decode`: on a matching prefix, split the remainder and read
`parts[0]` (IndexError when absent) and `int(parts[1])` when a second token is
present (ValueError on a non-numeral); on a non-matching prefix return the
`(None, None)` sentinel when `noraise` else raise `DecodeError`. -/
def decode (s : List Char) (noraise : Bool) :
    Except PyErr (Option (List Char) × Option Int) :=
  if cookie.isPrefixOf s then
    match pySplit (s.drop cookie.length) with
    | [] => .error .indexError
    | [d] => .ok (some d, none)
    | d :: t :: _ =>
      match pyInt t with
      | some n => .ok (some d, some n)
      | none => .error .valueError
  else if noraise then .ok (none, none)
  else .error .decodeError

/-- `GitFat.decode_clean`: decode with `noraise=True` and keep the digest. -/
def decode_clean (body : List Char) : Except PyErr (Option (List Char)) :=
  (decode body true).map (fun p => p.1)

/-- Python truthiness of the optional digest returned by `decode_clean`. -/
def pyTruthy : Option (List Char) → Bool
  | none => false
  | some s => !s.isEmpty

/-- The bytes of `"dummy".encode("utf-8")` hashed by
`_calculate_magic_len`. -/
def dummyBytes : List Nat := utf8 "dummy".data

/-- `hashlib.sha1("dummy".encode("utf-8")).hexdigest()`. -/
def dummyDigest (g : GitFat) : List Char := g.sha1hex dummyBytes

/-- `GitFat._calculate_magic_len`: length of the current encoding of a dummy
reference. -/
def magiclen (g : GitFat) : Nat := (encodeCore g (dummyDigest g) 5).length

/-- `GitFat._calculate_all_magic_lens`: lengths for both encoding versions. -/
def magiclens (g : GitFat) : List Nat :=
  [(encode_v1 (dummyDigest g)).length, (encode_v2 (dummyDigest g) 5).length]

/-- The object store `<git-dir>/fat/objects/`: blob name to blob bytes. -/
abbrev ObjStore := List (List Char × List Nat)

/-- `GitFat.catalog_objects`: the set of blob names in the store
(`os.listdir(objdir)`). -/
def catalog_objects (store : ObjStore) : List (List Char) :=
  store.map Prod.fst

/-- The hanging-file test performed by `filter_clean` on the first block:
`len(block) == self.magiclen and self.decode_clean(block[0:self.magiclen])`
(`and` short-circuits; exceptions escaping `decode_clean` propagate). -/
def hangingCheck (g : GitFat) (block : List Char) : Except PyErr Bool :=
  if block.length = magiclen g then
    (decode_clean (block.take (magiclen g))).map pyTruthy
  else .ok false

/-- `GitFat.filter_clean` over the input stream given as its list of blocks
(readblocks).  Result: the object store after the call and the characters
written to the clean output stream.  The temp file mechanics (create, chmod,
rename-or-remove) are reflected only through their effect on the store: the
hashed content is admitted under its digest unless already present.  Hashing
applies to `block.encode("utf-8")`, while the byte counter adds `len(block)`,
the number of characters. -/
def filter_clean (g : GitFat) (store : ObjStore) (blocks : List (List Char)) :
    Except PyErr (ObjStore × List Char) :=
  let content := blocks.flatten
  let hang : Except PyErr Bool :=
    match blocks with
    | [] => .ok false
    | b :: _ => hangingCheck g b
  match hang with
  | .error e => .error e
  | .ok true => .ok (store, content)
  | .ok false =>
    let digest := g.sha1hex (utf8 content)
    let newStore :=
      if digest ∈ catalog_objects store then store
      else store ++ [(digest, utf8 content)]
    match encode g digest (some (content.length : Int)) with
    | .ok ph => .ok (newStore, ph)
    | .error e => .error e

/-- `GitFat.cmd_filter_smudge` with stdin given as its full character
sequence and stdout as the returned characters: read `magiclen` characters,
try to decode; on a digest, stream the stored blob if present, else re-emit
`encode(digest, bytes)`; on `DecodeError`, pass the whole input through. -/
def cmd_filter_smudge (g : GitFat) (store : ObjStore) (input : List Char) :
    Except PyErr (List Char) :=
  let preamble := input.take (magiclen g)
  match decode preamble false with
  | .ok (some d, n) =>
    match store.lookup d with
    | some bytes =>
      match utf8Decode bytes with
      | some s => .ok s
      | none => .error .unicodeError
    | none => encode g d n
  | .ok (none, _) => .error .typeError
  | .error .decodeError => .ok input
  | .error e => .error e

/-- `GitFat.cmd_gc`: compute `garbage = catalog - referenced` and unlink
exactly those files; returns the store after the removals.  The referenced
set is the result of `referenced_objects()` (HEAD and its ancestors), taken
here as a parameter. -/
def cmd_gc (store : ObjStore) (referenced : List (List Char)) : ObjStore :=
  let garbage := (catalog_objects store).filter (fun d => decide (d ∉ referenced))
  store.filter (fun e => decide (e.1 ∉ garbage))

/-- Python `set.add` on a set represented as a duplicate-free list. -/
def pySetAdd (s : List (List Char)) (d : List Char) : List (List Char) :=
  if d ∈ s then s else s ++ [d]

/-- One iteration of the consumer loop of `GitFat.referenced_objects`: decode
a candidate blob content strictly; on success add the digest; catch only
`GitFat.DecodeError` (`except GitFat.DecodeError: pass`); any other exception
propagates. -/
def scanRecord (referenced : List (List Char)) (content : List Char) :
    Except PyErr (List (List Char)) :=
  match decode content false with
  | .ok p =>
    match p.1 with
    | some d => .ok (pySetAdd referenced d)
    | none => .ok referenced
  | .error .decodeError => .ok referenced
  | .error e => .error e

/-- The consumer loop of `GitFat.referenced_objects` over the contents of the
candidate blobs delivered by the `cat-file --batch` pipeline. -/
def scanRecords (referenced : List (List Char)) :
    List (List Char) → Except PyErr (List (List Char))
  | [] => .ok referenced
  | c :: cs =>
    match scanRecord referenced c with
    | .ok r => scanRecords r cs
    | .error e => .error e

/-- A concrete 40-character lowercase hex digest, used as the output of the
concrete hash-function instance in witnesses. -/
def d₀ : List Char := "0123456789abcdef0123456789abcdef01234567".data

/-- A concrete `GitFat` state: default version (V2), hash abstracted as the
constant function returning `d₀`. -/
def g₀ : GitFat := { version1 := false, sha1hex := fun _ => d₀ }

/-- Lowercase hex digit test (the character class of a digest). -/
def isLowerHex (c : Char) : Bool :=
  c.isDigit || ('a' ≤ c && c ≤ 'f')

/-! ### Decimal numerals -/

lemma natDigitsAux_eq : ∀ (fuel n : Nat) (acc : List Char), n < fuel →
    natDigitsAux fuel n acc = natDigitsWF n ++ acc := by
  intro fuel
  induction fuel with
  | zero => intro n acc h; omega
  | succ f ih =>
    intro n acc h
    by_cases h10 : n < 10
    · rw [natDigitsWF]
      simp [natDigitsAux, h10, Nat.mod_eq_of_lt h10]
    · have hd : n / 10 < n := Nat.div_lt_self (by omega) (by omega)
      rw [natDigitsWF]
      simp only [natDigitsAux, h10, if_false, dif_neg]
      rw [ih (n / 10) _ (by omega)]
      simp

lemma natDigits_eq (n : Nat) : natDigits n = natDigitsWF n := by
  simpa using natDigitsAux_eq (n + 1) n [] (by omega)

lemma natDigitsWF_ne_nil (n : Nat) : natDigitsWF n ≠ [] := by
  rw [natDigitsWF]
  split <;> simp

lemma dval_ofNat_digit (m : Nat) (h : m < 10) : dval (Char.ofNat (48 + m)) = m := by
  interval_cases m <;> decide

lemma isDigit_ofNat_digit (m : Nat) (h : m < 10) :
    (Char.ofNat (48 + m)).isDigit = true := by
  interval_cases m <;> decide

lemma natDigitsWF_digits (n : Nat) : ∀ c ∈ natDigitsWF n, c.isDigit = true := by
  induction n using Nat.strong_induction_on with
  | _ n ih =>
    intro c hc
    by_cases h : n < 10
    · rw [natDigitsWF] at hc
      simp [h] at hc
      subst hc
      exact isDigit_ofNat_digit n h
    · rw [natDigitsWF] at hc
      simp [h] at hc
      rcases hc with hc | hc
      · exact ih (n / 10) (Nat.div_lt_self (by omega) (by omega)) c hc
      · subst hc
        exact isDigit_ofNat_digit (n % 10) (Nat.mod_lt _ (by omega))

lemma natDigitsWF_foldl (n : Nat) : ∀ acc : Nat,
    (natDigitsWF n).foldl (fun a c => 10 * a + dval c) acc
      = acc * 10 ^ (natDigitsWF n).length + n := by
  induction n using Nat.strong_induction_on with
  | _ n ih =>
    intro acc
    by_cases h : n < 10
    · rw [natDigitsWF]
      simp [h, dval_ofNat_digit n h]
      ring
    · rw [natDigitsWF]
      simp only [h, dif_neg, not_false_iff, List.foldl_append, List.length_append]
      rw [ih (n / 10) (Nat.div_lt_self (by omega) (by omega)) acc]
      simp [dval_ofNat_digit (n % 10) (Nat.mod_lt _ (by omega))]
      rw [pow_succ]
      have hq : acc * (10 ^ (natDigitsWF (n / 10)).length * 10)
          = acc * 10 ^ (natDigitsWF (n / 10)).length * 10 := by ring
      rw [hq]
      generalize acc * 10 ^ (natDigitsWF (n / 10)).length = q
      omega

lemma pyDigitsRest_digits : ∀ (l : List Char), (∀ c ∈ l, c.isDigit = true) →
    ∀ acc, pyDigitsRest l acc
      = some (l.foldl (fun a c => 10 * a + dval c) acc) := by
  intro l
  induction l with
  | nil => intro _ acc; simp [pyDigitsRest]
  | cons c cs ih =>
    intro h acc
    have hc : c.isDigit = true := h c (by simp)
    have hstep : pyDigitsRest (c :: cs) acc = pyDigitsRest cs (10 * acc + dval c) := by
      rw [pyDigitsRest.eq_def]
      simp [hc]
    rw [hstep, List.foldl_cons]
    exact ih (fun x hx => h x (by simp [hx])) _

lemma pyParseNat_natDigitsWF (n : Nat) : pyParseNat (natDigitsWF n) = some n := by
  have hfold := natDigitsWF_foldl n 0
  have hdig := natDigitsWF_digits n
  cases hcons : natDigitsWF n with
  | nil => exact absurd hcons (natDigitsWF_ne_nil n)
  | cons c cs =>
    rw [hcons] at hfold hdig
    have hc : c.isDigit = true := hdig c (by simp)
    simp only [pyParseNat, hc, if_true]
    rw [pyDigitsRest_digits cs (fun x hx => hdig x (by simp [hx]))]
    simp only [List.foldl_cons, Nat.mul_zero, Nat.zero_mul, Nat.zero_add] at hfold
    rw [hfold]

lemma pyInt_natDigits (n : Nat) : pyInt (natDigits n) = some (n : Int) := by
  rw [natDigits_eq]
  cases hcons : natDigitsWF n with
  | nil => exact absurd hcons (natDigitsWF_ne_nil n)
  | cons c cs =>
    have hc : c.isDigit = true := natDigitsWF_digits n c (by rw [hcons]; simp)
    have hplus : ¬ c = '+' := by
      intro e; rw [e] at hc; exact absurd hc (by decide)
    have hminus : ¬ c = '-' := by
      intro e; rw [e] at hc; exact absurd hc (by decide)
    simp only [pyInt, hplus, hminus, if_false]
    rw [← hcons, pyParseNat_natDigitsWF]
    rfl

/-! ### Lengths of encoded placeholders -/

lemma cookie_length : cookie.length = 12 := by decide

lemma intDigits_natCast (n : Nat) : intDigits (n : Int) = natDigits n := by
  have h1 : ¬ ((n : Int) < 0) := by
    exact not_lt.mpr (Int.natCast_nonneg n)
  simp [intDigits, h1]

lemma natDigitsWF_len_le (n : Nat) : ∀ k, 1 ≤ k → n < 10 ^ k →
    (natDigitsWF n).length ≤ k := by
  induction n using Nat.strong_induction_on with
  | _ n ih =>
    intro k hk hlt
    by_cases h : n < 10
    · rw [natDigitsWF]
      simp [h]
      omega
    · have hk2 : 2 ≤ k := by
        by_contra hcon
        have hk1 : k = 1 := by omega
        subst hk1
        simp at hlt
        omega
      have hdiv : n / 10 < 10 ^ (k - 1) := by
        rw [Nat.div_lt_iff_lt_mul (by omega)]
        calc n < 10 ^ k := hlt
          _ = 10 ^ (k - 1) * 10 := by
              rw [← pow_succ]
              congr 1
              omega
      have hrec := ih (n / 10) (Nat.div_lt_self (by omega) (by omega))
        (k - 1) (by omega) hdiv
      rw [natDigitsWF]
      simp only [h, dif_neg, not_false_iff, List.length_append, List.length_cons,
        List.length_nil]
      omega

lemma natDigitsWF_len_ge (n : Nat) : ∀ k, 10 ^ k ≤ n →
    k + 1 ≤ (natDigitsWF n).length := by
  induction n using Nat.strong_induction_on with
  | _ n ih =>
    intro k hle
    by_cases h : n < 10
    · have hk : k = 0 := by
        by_contra hcon
        have h1 : 1 ≤ k := by omega
        have h10 : (10 : Nat) ≤ 10 ^ k := by
          calc (10 : Nat) = 10 ^ 1 := (pow_one 10).symm
            _ ≤ 10 ^ k := Nat.pow_le_pow_right (by omega) h1
        omega
      subst hk
      rw [natDigitsWF]
      simp [h]
    · rw [natDigitsWF]
      simp only [h, dif_neg, not_false_iff, List.length_append, List.length_cons,
        List.length_nil]
      cases k with
      | zero => omega
      | succ k2 =>
        have hdiv : 10 ^ k2 ≤ n / 10 := by
          rw [Nat.le_div_iff_mul_le (by omega)]
          calc 10 ^ k2 * 10 = 10 ^ (k2 + 1) := (pow_succ 10 k2).symm
            _ ≤ n := hle
        have hrec := ih (n / 10) (Nat.div_lt_self (by omega) (by omega)) k2 hdiv
        omega

lemma pad_length (w : Nat) (s : List Char) : (pad w s).length = max w s.length := by
  simp [pad]
  omega

lemma encode_v1_length (d : List Char) : (encode_v1 d).length = 13 + d.length := by
  simp [encode_v1, cookie_length]
  omega

lemma encode_v2_length (d : List Char) (n : Int) :
    (encode_v2 d n).length = 14 + d.length + max 20 (intDigits n).length := by
  simp [encode_v2, cookie_length, pad_length]
  omega

lemma natDigits_len_le_20 (n : Nat) (h : n < 10 ^ 20) : (natDigits n).length ≤ 20 := by
  rw [natDigits_eq]
  exact natDigitsWF_len_le n 20 (by omega) h

lemma encode_v2_length_of_lt (d : List Char) (n : Nat) (hd : d.length = 40)
    (hn : n < 10 ^ 20) : (encode_v2 d (n : Int)).length = 74 := by
  rw [encode_v2_length, hd, intDigits_natCast]
  have := natDigits_len_le_20 n hn
  omega

lemma magiclen_default (g : GitFat) (hv : g.version1 = false)
    (hlen : (dummyDigest g).length = 40) : magiclen g = 74 := by
  have h5 : (intDigits (5 : Int)).length = 1 := by decide
  simp [magiclen, encodeCore, hv, encode_v2_length, hlen, h5]

/-! ### Character classes -/

lemma digit_not_space (c : Char) (h : c.isDigit = true) : pyIsSpace c = false := by
  cases hps : pyIsSpace c
  · rfl
  · exfalso
    simp only [pyIsSpace, Bool.or_eq_true, decide_eq_true_eq] at hps
    rcases hps with ((((h1 | h1) | h1) | h1) | h1) | h1 <;>
      (subst h1; exact absurd h (by decide))

lemma lowerHex_not_space (c : Char) (h : isLowerHex c = true) :
    pyIsSpace c = false := by
  simp [isLowerHex] at h
  rcases h with hd | ⟨h1, h2⟩
  · exact digit_not_space c hd
  · cases hps : pyIsSpace c
    · rfl
    · exfalso
      simp only [pyIsSpace, Bool.or_eq_true, decide_eq_true_eq] at hps
      rcases hps with ((((he | he) | he) | he) | he) | he <;>
        (subst he; exact absurd h1 (by decide))

lemma natDigits_ne_nil (n : Nat) : natDigits n ≠ [] := by
  rw [natDigits_eq]
  exact natDigitsWF_ne_nil n

lemma natDigits_not_space (n : Nat) : ∀ c ∈ natDigits n, pyIsSpace c = false := by
  rw [natDigits_eq]
  intro c hc
  exact digit_not_space c (natDigitsWF_digits n c hc)

/-! ### Splitting -/

lemma isPrefixOf_append {α : Type} [BEq α] [LawfulBEq α] (l xs : List α) :
    l.isPrefixOf (l ++ xs) = true := by
  induction l with
  | nil => simp [List.isPrefixOf]
  | cons a t ih => simp [List.isPrefixOf, ih]

lemma splitAux_token : ∀ (tok : List Char), (∀ c ∈ tok, pyIsSpace c = false) →
    ∀ (cs acc : List Char), splitAux (tok ++ cs) acc = splitAux cs (tok.reverse ++ acc) := by
  intro tok
  induction tok with
  | nil => intro _ cs acc; simp
  | cons c t ih =>
    intro h cs acc
    have hc : pyIsSpace c = false := h c (by simp)
    have hstep : splitAux ((c :: t) ++ cs) acc = splitAux (t ++ cs) (c :: acc) := by
      simp [splitAux, hc]
    rw [hstep, ih (fun x hx => h x (by simp [hx])) cs (c :: acc)]
    simp

lemma splitAux_spaces : ∀ (sp : List Char), (∀ c ∈ sp, pyIsSpace c = true) →
    ∀ cs, splitAux (sp ++ cs) [] = splitAux cs [] := by
  intro sp
  induction sp with
  | nil => intro _ cs; simp
  | cons c t ih =>
    intro h cs
    have hc : pyIsSpace c = true := h c (by simp)
    simp only [List.cons_append, splitAux, hc, if_true, List.isEmpty_nil]
    exact ih (fun x hx => h x (by simp [hx])) cs

lemma splitAux_space_cons (c : Char) (hc : pyIsSpace c = true) (cs acc : List Char)
    (ha : acc ≠ []) : splitAux (c :: cs) acc = acc.reverse :: splitAux cs [] := by
  cases acc with
  | nil => exact absurd rfl ha
  | cons a t => simp [splitAux, hc]

lemma pySplit_digest_size (d sp t2 : List Char)
    (h1 : d ≠ []) (h1s : ∀ c ∈ d, pyIsSpace c = false)
    (hsp : ∀ c ∈ sp, pyIsSpace c = true)
    (h2 : t2 ≠ []) (h2s : ∀ c ∈ t2, pyIsSpace c = false) :
    pySplit (d ++ (' ' :: (sp ++ (t2 ++ ['\n'])))) = [d, t2] := by
  unfold pySplit
  rw [splitAux_token d h1s]
  rw [List.append_nil]
  rw [splitAux_space_cons ' ' (by decide) _ d.reverse (by simpa using h1)]
  rw [List.reverse_reverse]
  rw [splitAux_spaces sp hsp]
  rw [splitAux_token t2 h2s]
  rw [List.append_nil]
  rw [splitAux_space_cons '\n' (by decide) [] t2.reverse (by simpa using h2)]
  rw [List.reverse_reverse]
  simp [splitAux]

/-! ### Decoding a canonical V2 placeholder -/

lemma decode_encode_v2 (d : List Char) (n : Nat) (nr : Bool)
    (hne : d ≠ []) (hds : ∀ c ∈ d, pyIsSpace c = false) :
    decode (encode_v2 d (n : Int)) nr = .ok (some d, some (n : Int)) := by
  have hshape : encode_v2 d (n : Int) =
      cookie ++ (d ++ (' ' :: (List.replicate (20 - (natDigits n).length) ' ' ++
        (natDigits n ++ ['\n'])))) := by
    simp [encode_v2, pad, intDigits_natCast]
  have hsplit := pySplit_digest_size d
    (List.replicate (20 - (natDigits n).length) ' ') (natDigits n) hne hds
    (fun c hc => by rw [List.eq_of_mem_replicate hc]; decide)
    (natDigits_ne_nil n) (natDigits_not_space n)
  rw [hshape]
  simp only [decode, isPrefixOf_append, if_true, List.drop_left, hsplit,
    pyInt_natDigits]

/-- C5: with the default (V2) encoder active, decoding the encoding of any
40-character lowercase-hex digest `d` and any byte count `n ≥ 0` returns
exactly `(d, n)`. -/
theorem claim_C5_decode_encode (g : GitFat) (d : List Char) (n : Nat)
    (hv : g.version1 = false) (hlen : d.length = 40)
    (hhex : ∀ c ∈ d, isLowerHex c = true) :
    decode (encodeCore g d (n : Int)) false = .ok (some d, some (n : Int)) := by
  have hne : d ≠ [] := by
    intro e
    rw [e] at hlen
    simp at hlen
  have hds : ∀ c ∈ d, pyIsSpace c = false :=
    fun c hc => lowerHex_not_space c (hhex c hc)
  simp only [encodeCore, hv, Bool.false_eq_true, if_false]
  exact decode_encode_v2 d n false hne hds

/-- Witness for C5 at a concrete digest and the byte count 11. -/
theorem claim_C5_witness :
    decode (encodeCore g₀ d₀ ((11 : Nat) : Int)) false
      = .ok (some d₀, some ((11 : Nat) : Int)) :=
  claim_C5_decode_encode g₀ d₀ 11 rfl (by decide) (by decide)

/-- C2: when the first `magiclen` characters of the smudge input do not start
with the placeholder prefix, the whole input (head plus remainder of the
stream) is forwarded to the output unchanged. -/
theorem claim_C2_passthrough (g : GitFat) (store : ObjStore) (input : List Char)
    (h : cookie.isPrefixOf (input.take (magiclen g)) = false) :
    cmd_filter_smudge g store input = .ok input := by
  simp only [cmd_filter_smudge]
  have hdec : decode (input.take (magiclen g)) false = .error .decodeError := by
    simp [decode, h]
  rw [hdec]

/-- Witness for C2: smudging plain text returns it unchanged. -/
theorem claim_C2_witness :
    cmd_filter_smudge g₀ [] ("hello".data) = .ok ("hello".data) :=
  claim_C2_passthrough g₀ [] "hello".data (by decide)

/-- C3 (amended): for a canonical V2 placeholder under the default V2 version,
with the digest absent from the object store, smudge re-emits the placeholder
byte-identically and terminates without error. -/
theorem claim_C3_missing_blob (g : GitFat) (store : ObjStore) (d : List Char) (n : Nat)
    (hv : g.version1 = false)
    (hsha : ∀ bs, (g.sha1hex bs).length = 40)
    (hlen : d.length = 40) (hhex : ∀ c ∈ d, isLowerHex c = true)
    (hn : n < 10 ^ 20)
    (habsent : store.lookup d = none) :
    cmd_filter_smudge g store (encode_v2 d (n : Int))
      = .ok (encode_v2 d (n : Int)) := by
  have hmag : magiclen g = 74 := magiclen_default g hv (hsha dummyBytes)
  have hlen74 : (encode_v2 d (n : Int)).length = 74 :=
    encode_v2_length_of_lt d n hlen hn
  have htake : (encode_v2 d (n : Int)).take (magiclen g) = encode_v2 d (n : Int) := by
    rw [hmag, ← hlen74, List.take_length]
  have hne : d ≠ [] := by
    intro e
    rw [e] at hlen
    simp at hlen
  have hds : ∀ c ∈ d, pyIsSpace c = false :=
    fun c hc => lowerHex_not_space c (hhex c hc)
  simp only [cmd_filter_smudge]
  rw [htake, decode_encode_v2 d n false hne hds]
  simp [habsent, encode, hv]

/-- Witness for the amended C3 at a concrete digest, size 5, empty store. -/
theorem claim_C3_witness :
    cmd_filter_smudge g₀ [] (encode_v2 d₀ ((5 : Nat) : Int))
      = .ok (encode_v2 d₀ ((5 : Nat) : Int)) :=
  claim_C3_missing_blob g₀ [] d₀ 5 rfl (fun _ => show d₀.length = 40 by decide)
    (by decide) (by decide) (by decide) rfl

/-- C3 counterexample: a valid V1 placeholder (a supported version) whose blob
is absent does not get re-emitted; `encode(digest, None)` under the default V2
encoder raises `TypeError` from `"%20d" % None`. -/
theorem claim_C3_cex :
    cmd_filter_smudge g₀ [] (encode_v1 d₀) = .error .typeError := by decide

/-- C1 (evaluation at the failing input): cleaning the single-character input
"é" (UTF-8 bytes C3 A9) admits the blob under the hash of its 2-byte UTF-8
encoding but writes a placeholder whose size field is 1 — the Python character
count — although the input is 2 bytes long: length accounting is not over raw
bytes. -/
theorem claim_C1_char_count :
    filter_clean g₀ [] [['é']]
        = .ok ([(d₀, [195, 169])], encode_v2 d₀ (1 : Int))
      ∧ (utf8 ['é']).length = 2 :=
  ⟨by decide, by decide⟩

/-- C4: when the first block passes the hanging-file test (exactly `magiclen`
characters and `decode_clean` succeeds with a truthy digest), the whole input
is written unchanged to the clean output stream, the object store is
untouched, and no placeholder is emitted. -/
theorem claim_C4_hanging (g : GitFat) (store : ObjStore) (b : List Char)
    (rest : List (List Char)) (h : hangingCheck g b = .ok true) :
    filter_clean g store (b :: rest) = .ok (store, (b :: rest).flatten) := by
  simp only [filter_clean, h]

/-- Witness for C4: cleaning a canonical placeholder passes it through and
admits nothing. -/
theorem claim_C4_witness :
    filter_clean g₀ [] [encode_v2 d₀ (5 : Int)]
      = .ok ([], [encode_v2 d₀ (5 : Int)].flatten) :=
  claim_C4_hanging g₀ [] (encode_v2 d₀ (5 : Int)) [] (by decide)

/-- C6 counterexample: the startup magic length of the default V2 encoding is
not 67 (it is 74). -/
theorem claim_C6_cex : magiclen g₀ ≠ 67 := by decide

/-- C6 (amended): under the default V2 version the startup magic length is 74,
and cleaning any non-hanging content (of fewer than 10^20 characters) writes a
74-character placeholder to the clean output stream. -/
theorem claim_C6_amended (g : GitFat) (store : ObjStore) (blocks : List (List Char))
    (hv : g.version1 = false)
    (hsha : ∀ bs, (g.sha1hex bs).length = 40)
    (hh : ∀ b bs, blocks = b :: bs → hangingCheck g b = .ok false)
    (hn : blocks.flatten.length < 10 ^ 20) :
    magiclen g = 74 ∧
    ∃ st, filter_clean g store blocks
        = .ok (st, encode_v2 (g.sha1hex (utf8 blocks.flatten))
            (blocks.flatten.length : Int)) ∧
      (encode_v2 (g.sha1hex (utf8 blocks.flatten))
        (blocks.flatten.length : Int)).length = 74 := by
  refine ⟨magiclen_default g hv (hsha dummyBytes), ?_⟩
  have hhang : (match blocks with
      | [] => (Except.ok false : Except PyErr Bool)
      | b :: _ => hangingCheck g b) = Except.ok false := by
    cases blocks with
    | nil => rfl
    | cons b bs => exact hh b bs rfl
  have henc : encode g (g.sha1hex (utf8 blocks.flatten))
      (some (blocks.flatten.length : Int))
      = .ok (encode_v2 (g.sha1hex (utf8 blocks.flatten))
          (blocks.flatten.length : Int)) := by
    simp [encode, hv]
  simp only [filter_clean, hhang, henc]
  exact ⟨_, rfl, encode_v2_length_of_lt _ _ (hsha _) hn⟩

/-- Witness for the amended C6 on a small two-character input. -/
theorem claim_C6_witness :
    magiclen g₀ = 74 ∧
    ∃ st, filter_clean g₀ [] [['h', 'i']]
        = .ok (st, encode_v2 (g₀.sha1hex (utf8 ([['h', 'i']] : List (List Char)).flatten))
            ((([['h', 'i']] : List (List Char)).flatten.length : Int))) ∧
      (encode_v2 (g₀.sha1hex (utf8 ([['h', 'i']] : List (List Char)).flatten))
        ((([['h', 'i']] : List (List Char)).flatten.length : Int))).length = 74 :=
  claim_C6_amended g₀ [] [['h', 'i']] rfl (fun _ => show d₀.length = 40 by decide)
    (by
      intro b bs h
      cases h
      decide)
    (by decide)

/-- C7 counterexample: the V2 encoded length is not constant once the size
needs more than the 20-character padded field; at size 10^20 the record is 75
characters, against 74 at size 5. -/
theorem claim_C7_cex :
    (encode_v2 d₀ ((10 : Int) ^ 20)).length
      ≠ (encode_v2 d₀ ((5 : Nat) : Int)).length := by
  have h1 : (encode_v2 d₀ ((5 : Nat) : Int)).length = 74 :=
    encode_v2_length_of_lt d₀ 5 (by decide) (by decide)
  have hcast : ((10 : Int) ^ 20) = ((10 ^ 20 : Nat) : Int) := by
    push_cast
  have hge := natDigitsWF_len_ge (10 ^ 20) 20 (le_refl _)
  have hmax : max 20 (natDigitsWF (10 ^ 20)).length
      = (natDigitsWF (10 ^ 20)).length := max_eq_right (by omega)
  have hd : d₀.length = 40 := by decide
  have h2 : (encode_v2 d₀ ((10 : Int) ^ 20)).length
      = 14 + 40 + (natDigitsWF (10 ^ 20)).length := by
    rw [encode_v2_length, hcast, intDigits_natCast, natDigits_eq, hmax, hd]
  omega

/-- C7 (amended): for each version the encoded length is constant across all
40-character digests and all sizes of at most 20 decimal digits
(0 ≤ n < 10^20, which covers the whole 64-bit range). -/
theorem claim_C7_amended (d d' : List Char) (n n' : Nat)
    (hd : d.length = 40) (hd' : d'.length = 40)
    (hn : n < 10 ^ 20) (hn' : n' < 10 ^ 20) :
    (encode_v2 d (n : Int)).length = (encode_v2 d' (n' : Int)).length ∧
    (encode_v1 d).length = (encode_v1 d').length := by
  constructor
  · rw [encode_v2_length_of_lt d n hd hn, encode_v2_length_of_lt d' n' hd' hn']
  · rw [encode_v1_length, encode_v1_length, hd, hd']

/-- Witness for the amended C7 at two concrete sizes. -/
theorem claim_C7_witness :
    (encode_v2 d₀ ((5 : Nat) : Int)).length = (encode_v2 d₀ ((123 : Nat) : Int)).length ∧
    (encode_v1 d₀).length = (encode_v1 d₀).length :=
  claim_C7_amended d₀ d₀ 5 123 (by decide) (by decide) (by decide) (by decide)

/-- C8: gc retains exactly the store entries whose name lies in the referenced
set — every unreferenced file is removed, every referenced blob is kept with
its contents unchanged. -/
theorem claim_C8_gc (store : ObjStore) (referenced : List (List Char))
    (e : List Char × List Nat) :
    e ∈ cmd_gc store referenced ↔ e ∈ store ∧ e.1 ∈ referenced := by
  simp only [cmd_gc, catalog_objects, List.mem_filter, decide_eq_true_eq,
    List.mem_map]
  constructor
  · rintro ⟨he, hg⟩
    refine ⟨he, ?_⟩
    by_contra href
    exact hg ⟨⟨e, he, rfl⟩, href⟩
  · rintro ⟨he, href⟩
    exact ⟨he, fun h => h.2 href⟩

/-- C9 (amended): a candidate blob of magic-length size whose content does not
start with the placeholder prefix is skipped without error — the referenced
set is unchanged and the scan continues with the next record. -/
theorem claim_C9_amended (g : GitFat) (referenced : List (List Char))
    (content : List Char) (cs : List (List Char))
    (hsize : content.length ∈ magiclens g)
    (h : cookie.isPrefixOf content = false) :
    scanRecord referenced content = .ok referenced ∧
    scanRecords referenced (content :: cs) = scanRecords referenced cs := by
  have hdec : decode content false = .error .decodeError := by
    simp [decode, h]
  have h1 : scanRecord referenced content = .ok referenced := by
    simp only [scanRecord, hdec]
  exact ⟨h1, by simp only [scanRecords, h1]⟩

/-- Witness for the amended C9 on a 74-character non-placeholder content. -/
theorem claim_C9_witness :
    scanRecord [] (List.replicate 74 'x') = .ok [] ∧
    scanRecords [] (List.replicate 74 'x' :: []) = scanRecords [] [] :=
  claim_C9_amended g₀ [] (List.replicate 74 'x') [] (by decide) (by decide)

/-- C9 counterexample: a magic-length content that begins with the placeholder
prefix but is otherwise malformed (only whitespace follows) is not skipped:
the strict decode raises IndexError, which the scan loop does not catch. -/
theorem claim_C9_cex :
    (cookie ++ List.replicate 62 ' ').length ∈ magiclens g₀ ∧
    cookie.isPrefixOf (cookie ++ List.replicate 62 ' ') = true ∧
    scanRecord [] (cookie ++ List.replicate 62 ' ') = .error .indexError :=
  ⟨by decide, by decide, by decide⟩

/-- C10 (amended): decode with noraise=True returns one of the three shapes
(digest and size, digest alone, or the (None, None) sentinel) — never a raise
— for every input that does not start with the prefix, or that starts with it,
has a first token, and whose second token (when present) parses as an
integer.  (Prefix-matching inputs with no token raise IndexError; a
non-integer second token raises ValueError.) -/
theorem claim_C10_amended (s : List Char)
    (h : cookie.isPrefixOf s = true →
      ∃ d ts, pySplit (s.drop cookie.length) = d :: ts ∧
        ∀ t ts2, ts = t :: ts2 → (pyInt t).isSome = true) :
    ∃ dg sz, decode s true = .ok (dg, sz) ∧ (dg = none → sz = none) := by
  by_cases hpre : cookie.isPrefixOf s = true
  · obtain ⟨d, ts, hsplit, hnum⟩ := h hpre
    cases ts with
    | nil =>
      refine ⟨some d, none, ?_, by simp⟩
      simp [decode, hpre, hsplit]
    | cons t ts2 =>
      have hs := hnum t ts2 rfl
      obtain ⟨m, hm⟩ := Option.isSome_iff_exists.mp hs
      refine ⟨some d, some m, ?_, by simp⟩
      simp [decode, hpre, hsplit, hm]
  · have hfalse : cookie.isPrefixOf s = false := by
      cases hx : cookie.isPrefixOf s
      · rfl
      · exact absurd hx hpre
    refine ⟨none, none, ?_, fun _ => rfl⟩
    simp [decode, hfalse]

/-- Witness for the amended C10 on a non-placeholder input. -/
theorem claim_C10_witness :
    ∃ dg sz, decode ("hello".data) true = .ok (dg, sz) ∧ (dg = none → sz = none) :=
  claim_C10_amended "hello".data (by
    intro hpre
    exact absurd hpre (by decide))

/-- C10 counterexample: on the input consisting of the bare prefix, decode
with noraise=True still raises (IndexError from `parts[0]`): it is not total. -/
theorem claim_C10_cex : decode ("#$# git-fat ".data) true = .error .indexError := by
  decide
